import Mathlib

/-!
Shallow embedding of the angle/geometry engine and interaction state machine
of the GimpDial widget (app/widgets/gimpdial.c), together with proofs of the
specified properties.  C doubles are modelled as real numbers, `atan2` as the
argument of a complex number (both have range (-pi, pi]), and the mutable
widget state as an explicit record threaded through the event handlers.
-/

open Real

/-- The constant REL from gimpdial.c (barb length fraction). -/
def REL : ℝ := 0.8

/-- The constant DEL from gimpdial.c (barb spread, radians). -/
def DEL : ℝ := 0.1

/-- The constant TICK from gimpdial.c (tick length, pixels). -/
def TICK : ℝ := 10

/-- The constant EACH_OR_BOTH from gimpdial.c (hit-test threshold fraction). -/
def EACH_OR_BOTH : ℝ := 0.3

/-- The DialTarget enum from gimpdial.c. -/
inductive DialTarget
  | ALPHA
  | BETA
  | BOTH
  deriving DecidableEq, Repr

/-- angle_mod_2PI from gimpdial.c: if the angle is negative add one turn,
if it exceeds 2*pi subtract one turn, otherwise return it unchanged. -/
noncomputable def angle_mod_2PI (angle : ℝ) : ℝ :=
  if angle < 0 then angle + 2 * π
  else if angle > 2 * π then angle - 2 * π
  else angle

/-- arctg from gimpdial.c: atan2 (y, x) mapped into [0, 2*pi) by adding one
turn to negative results.  atan2 is modelled as the complex argument of
x + y*i, which has the same range (-pi, pi]. -/
noncomputable def arctg (y x : ℝ) : ℝ :=
  let temp := Complex.arg (x + y * Complex.I)
  if temp < 0 then temp + 2 * π else temp

/-- min_prox from gimpdial.c: the smaller of the two angular distances from
angle to alpha and to beta. -/
noncomputable def min_prox (alpha beta angle : ℝ) : ℝ :=
  let temp1 := min (angle_mod_2PI (alpha - angle))
                   (2 * π - angle_mod_2PI (alpha - angle))
  let temp2 := min (angle_mod_2PI (beta - angle))
                   (2 * π - angle_mod_2PI (beta - angle))
  min temp1 temp2

/-- closest from gimpdial.c: the handle whose angular distance to angle is
smaller; ties fall through to BETA. -/
noncomputable def closest (alpha beta angle : ℝ) : DialTarget :=
  let temp_alpha := min (angle_mod_2PI (alpha - angle))
                        (2 * π - angle_mod_2PI (alpha - angle))
  let temp_beta  := min (angle_mod_2PI (beta - angle))
                        (2 * π - angle_mod_2PI (beta - angle))
  if temp_alpha - temp_beta < 0 then DialTarget.ALPHA else DialTarget.BETA

/-- The angular-distance expression of gimpdial.c (the temp1 / temp_alpha
subterm shared by min_prox and closest): the minimum of the forward and the
backward separation of two angles. -/
noncomputable def angularDistance (a b : ℝ) : ℝ :=
  min (angle_mod_2PI (a - b)) (2 * π - angle_mod_2PI (a - b))

/-- Widget allocation (GtkAllocation): width and height in pixels. -/
structure GtkAllocation where
  width : ℤ
  height : ℤ

/-- The dial state (GimpDialPrivate): the two handle angles, the sweep
direction, the border width, and the transient drag state. -/
structure GimpDial where
  alpha : ℝ
  beta : ℝ
  clockwise : Bool
  target : DialTarget
  press_angle : ℝ
  border_width : ℤ

/-- size as computed in the event handlers:
MIN (allocation.width, allocation.height) - 2 * border_width. -/
def dial_size (dial : GimpDial) (allocation : GtkAllocation) : ℤ :=
  min allocation.width allocation.height - 2 * dial.border_width

/-- center_x = allocation.width / 2.0. -/
noncomputable def center_x (allocation : GtkAllocation) : ℝ :=
  (allocation.width : ℝ) / 2

/-- center_y = allocation.height / 2.0. -/
noncomputable def center_y (allocation : GtkAllocation) : ℝ :=
  (allocation.height : ℝ) / 2

/-- The angle of a pointer position, as both handlers compute it:
angle_mod_2PI (arctg (center_y - y, x - center_x)). -/
noncomputable def pointer_angle (allocation : GtkAllocation) (x y : ℝ) : ℝ :=
  angle_mod_2PI (arctg (center_y allocation - y) (x - center_x allocation))

/-- The distance of the press point from the center, as the press handler
computes it: sqrt (SQR (y - center_y) + SQR (x - center_x)). -/
noncomputable def distance_from_center (allocation : GtkAllocation) (x y : ℝ) : ℝ :=
  Real.sqrt ((y - center_y allocation) ^ 2 + (x - center_x allocation) ^ 2)

/-- gimp_dial_button_press_event, primary-button branch: store the press
angle; if the press is farther from the center than EACH_OR_BOTH of the
radius and within pi/12 of one of the handles, target that handle and snap
it to the press angle, otherwise target both handles. -/
noncomputable def gimp_dial_button_press_event
    (dial : GimpDial) (allocation : GtkAllocation) (x y : ℝ) : GimpDial :=
  let size := dial_size dial allocation
  let press_angle := pointer_angle allocation x y
  let dial1 := { dial with press_angle := press_angle }
  if distance_from_center allocation x y > (size : ℝ) / 2 * EACH_OR_BOTH ∧
     min_prox dial1.alpha dial1.beta press_angle < π / 12 then
    let t := closest dial1.alpha dial1.beta press_angle
    if t = DialTarget.ALPHA then
      { dial1 with target := t, alpha := press_angle }
    else
      { dial1 with target := t, beta := press_angle }
  else
    { dial1 with target := DialTarget.BOTH }

/-- gimp_dial_motion_notify_event: recompute the pointer angle, take the raw
delta against the stored angle, store the new angle, and if the delta is
nonzero move the targeted handle (or both, each shifted by delta and
renormalized). -/
noncomputable def gimp_dial_motion_notify_event
    (dial : GimpDial) (allocation : GtkAllocation) (x y : ℝ) : GimpDial :=
  let motion_angle := pointer_angle allocation x y
  let delta := motion_angle - dial.press_angle
  let dial1 := { dial with press_angle := motion_angle }
  if delta ≠ 0 then
    if dial1.target = DialTarget.ALPHA then
      { dial1 with alpha := motion_angle }
    else if dial1.target = DialTarget.BETA then
      { dial1 with beta := motion_angle }
    else
      { dial1 with alpha := angle_mod_2PI (dial1.alpha + delta),
                   beta := angle_mod_2PI (dial1.beta + delta) }
  else
    dial1

/-- gimp_dial_background_func_hsv: value is 1 - sqrt (distance) / 4, and the
rgb triple is produced by the hsv-to-rgb conversion.  gimp_hsv_to_rgb4 lives
in libgimpcolor and is kept abstract as a parameter. -/
noncomputable def gimp_dial_background_func_hsv
    (gimp_hsv_to_rgb4 : ℝ → ℝ → ℝ → ℕ × ℕ × ℕ)
    (angle distance : ℝ) : ℕ × ℕ × ℕ :=
  let v := 1 - Real.sqrt distance / 4
  gimp_hsv_to_rgb4 angle distance v

/-- The body of the pixel loop of gimp_dial_draw_background: the ARGB pixel
written at column i, row j of the size-by-size buffer (rgb triple plus the
constant alpha 255). -/
noncomputable def gimp_dial_draw_background_pixel
    (bg_func : ℝ → ℝ → ℕ × ℕ × ℕ) (size i j : ℕ) : (ℕ × ℕ × ℕ) × ℕ :=
  let distance := Real.sqrt ((((i : ℝ) - (size : ℝ) / 2) ^ 2 +
                              ((j : ℝ) - (size : ℝ) / 2) ^ 2) /
                             ((size : ℝ) / 2) ^ 2)
  let angle := arctg ((size : ℝ) / 2 - (j : ℝ)) ((i : ℝ) - (size : ℝ) / 2) /
               (2 * π)
  (bg_func angle (min 1 distance), 255)

/-- The background pixel as the specification describes it: hue is the
arctg angle fraction, saturation is the distance from the center divided by
the radius and clamped to 1, value is 1 - sqrt (saturation) / 4, alpha is
opaque. -/
noncomputable def spec_background_pixel
    (gimp_hsv_to_rgb4 : ℝ → ℝ → ℝ → ℕ × ℕ × ℕ)
    (size i j : ℕ) : (ℕ × ℕ × ℕ) × ℕ :=
  let hue := arctg ((size : ℝ) / 2 - (j : ℝ)) ((i : ℝ) - (size : ℝ) / 2) /
             (2 * π)
  let saturation :=
    min 1 (Real.sqrt (((i : ℝ) - (size : ℝ) / 2) ^ 2 +
                      ((j : ℝ) - (size : ℝ) / 2) ^ 2) / ((size : ℝ) / 2))
  let value := 1 - Real.sqrt saturation / 4
  (gimp_hsv_to_rgb4 hue saturation value, 255)

/-! ### Basic lemmas about the angle helpers -/

theorem angle_mod_2PI_of_nonneg_le {x : ℝ} (h0 : 0 ≤ x) (h2 : x ≤ 2 * π) :
    angle_mod_2PI x = x := by
  unfold angle_mod_2PI
  rw [if_neg (by linarith), if_neg (by linarith)]

theorem angle_mod_2PI_mem_Icc {x : ℝ} (h : x ∈ Set.Icc (-(2 * π)) (4 * π)) :
    angle_mod_2PI x ∈ Set.Icc 0 (2 * π) := by
  obtain ⟨h1, h2⟩ := h
  have hπ : (0 : ℝ) < π := Real.pi_pos
  unfold angle_mod_2PI
  split_ifs with ha hb
  · constructor <;> linarith
  · constructor <;> linarith
  · constructor <;> linarith

theorem angle_mod_2PI_shift (x : ℝ) :
    angle_mod_2PI x = x ∨ angle_mod_2PI x = x + 2 * π ∨
      angle_mod_2PI x = x - 2 * π := by
  unfold angle_mod_2PI
  split_ifs <;> tauto

theorem arctg_mem_Ico (y x : ℝ) : arctg y x ∈ Set.Ico 0 (2 * π) := by
  have hπ : (0 : ℝ) < π := Real.pi_pos
  have h1 : -π < Complex.arg (x + y * Complex.I) := Complex.neg_pi_lt_arg _
  have h2 : Complex.arg (x + y * Complex.I) ≤ π := Complex.arg_le_pi _
  unfold arctg
  simp only []
  split_ifs with h
  · exact ⟨by linarith, by linarith⟩
  · push_neg at h
    exact ⟨by linarith, by linarith⟩

theorem pointer_angle_mem_Ico (allocation : GtkAllocation) (x y : ℝ) :
    pointer_angle allocation x y ∈ Set.Ico 0 (2 * π) := by
  have h := arctg_mem_Ico (center_y allocation - y) (x - center_x allocation)
  unfold pointer_angle
  rw [angle_mod_2PI_of_nonneg_le h.1 (le_of_lt h.2)]
  exact h

theorem angle_mod_2PI_of_neg {x : ℝ} (h : x < 0) :
    angle_mod_2PI x = x + 2 * π := by
  unfold angle_mod_2PI
  rw [if_pos h]

theorem angle_mod_2PI_cases (x : ℝ) :
    (x < 0 ∧ angle_mod_2PI x = x + 2 * π) ∨
    (2 * π < x ∧ angle_mod_2PI x = x - 2 * π) ∨
    (0 ≤ x ∧ x ≤ 2 * π ∧ angle_mod_2PI x = x) := by
  unfold angle_mod_2PI
  split_ifs with h1 h2
  · exact Or.inl ⟨h1, rfl⟩
  · exact Or.inr (Or.inl ⟨h2, rfl⟩)
  · exact Or.inr (Or.inr ⟨le_of_not_lt h1, le_of_not_lt h2, rfl⟩)

theorem angularDistance_zero_right (a b : ℝ) :
    angularDistance a b = angularDistance (a - b) 0 := by
  unfold angularDistance
  rw [sub_zero]

theorem angularDistance_shift {x : ℝ} (h1 : -(2 * π) ≤ x) (h2 : x ≤ 0) :
    angularDistance (x + 2 * π) 0 = angularDistance x 0 := by
  have hπ : (0 : ℝ) < π := Real.pi_pos
  unfold angularDistance
  rw [sub_zero, sub_zero]
  rcases lt_or_ge x 0 with hx | hx
  · rw [angle_mod_2PI_of_neg hx,
        angle_mod_2PI_of_nonneg_le (by linarith) (by linarith)]
  · have hx0 : x = 0 := le_antisymm h2 hx
    subst hx0
    rw [zero_add,
        angle_mod_2PI_of_nonneg_le (by linarith) (le_refl (2 * π)),
        angle_mod_2PI_of_nonneg_le (le_refl 0) (by linarith)]
    rw [sub_self, sub_zero, min_comm]

theorem angularDistance_neg {x : ℝ} (h1 : -(2 * π) ≤ x) (h2 : x ≤ 2 * π) :
    angularDistance (-x) 0 = angularDistance x 0 := by
  have hπ : (0 : ℝ) < π := Real.pi_pos
  unfold angularDistance
  rw [sub_zero, sub_zero]
  rcases lt_trichotomy x 0 with hx | hx | hx
  · rw [angle_mod_2PI_of_neg hx,
        angle_mod_2PI_of_nonneg_le (by linarith) (by linarith)]
    rw [min_comm]
    congr 1 <;> ring
  · subst hx
    rw [neg_zero]
  · rw [angle_mod_2PI_of_neg (by linarith),
        angle_mod_2PI_of_nonneg_le (by linarith) h2]
    rw [min_comm]
    congr 1 <;> ring

theorem angularDistance_congr {x y : ℝ}
    (hx : x ∈ Set.Icc (-(2 * π)) (2 * π))
    (hy : y ∈ Set.Icc (-(2 * π)) (2 * π))
    (h : y = x ∨ y = x + 2 * π ∨ y = x - 2 * π) :
    angularDistance y 0 = angularDistance x 0 := by
  rcases h with h | h | h
  · rw [h]
  · subst h
    exact angularDistance_shift hx.1 (by linarith [hy.2])
  · subst h
    have hs := angularDistance_shift (x := x - 2 * π)
      (by linarith [hy.1]) (by linarith [hx.2])
    rw [show x - 2 * π + 2 * π = x by ring] at hs
    exact hs.symm

theorem both_rotation_preserves_angularDistance {a b d : ℝ}
    (ha : a ∈ Set.Icc 0 (2 * π)) (hb : b ∈ Set.Icc 0 (2 * π))
    (hd1 : -(2 * π) < d) (hd2 : d < 2 * π) :
    angularDistance (angle_mod_2PI (a + d)) (angle_mod_2PI (b + d)) =
      angularDistance a b := by
  have hπ : (0 : ℝ) < π := Real.pi_pos
  have hxmem : a - b ∈ Set.Icc (-(2 * π)) (2 * π) :=
    ⟨by linarith [ha.1, hb.2], by linarith [ha.2, hb.1]⟩
  rw [angularDistance_zero_right, angularDistance_zero_right a b]
  rcases angle_mod_2PI_cases (a + d) with ⟨hc1, he1⟩ | ⟨hc1, he1⟩ | ⟨hc1, hc1b, he1⟩ <;>
    rcases angle_mod_2PI_cases (b + d) with ⟨hc2, he2⟩ | ⟨hc2, he2⟩ | ⟨hc2, hc2b, he2⟩ <;>
    rw [he1, he2]
  · rw [show a + d + 2 * π - (b + d + 2 * π) = a - b by ring]
  · exact absurd hc2 (by linarith [ha.1, hb.2])
  · rw [show a + d + 2 * π - (b + d) = a - b + 2 * π by ring]
    exact angularDistance_congr hxmem
      ⟨by linarith [hxmem.1], by linarith⟩ (Or.inr (Or.inl rfl))
  · exact absurd hc2 (by linarith [ha.2, hb.1])
  · rw [show a + d - 2 * π - (b + d - 2 * π) = a - b by ring]
  · rw [show a + d - 2 * π - (b + d) = a - b - 2 * π by ring]
    exact angularDistance_congr hxmem
      ⟨by linarith, by linarith [hxmem.2]⟩ (Or.inr (Or.inr rfl))
  · rw [show a + d - (b + d + 2 * π) = a - b - 2 * π by ring]
    exact angularDistance_congr hxmem
      ⟨by linarith, by linarith [hxmem.2]⟩ (Or.inr (Or.inr rfl))
  · rw [show a + d - (b + d - 2 * π) = a - b + 2 * π by ring]
    exact angularDistance_congr hxmem
      ⟨by linarith [hxmem.1], by linarith⟩ (Or.inr (Or.inl rfl))
  · rw [show a + d - (b + d) = a - b by ring]

/-! ### Claim C3 -/

/-- Claim C3 counterexample: the input 2*pi lies in the stated domain
[-2*pi, 4*pi], yet angle_mod_2PI returns 2*pi itself, which is not in
[0, 2*pi), because both guards of the function are strict. -/
theorem angle_mod_2PI_range_counterexample :
    (2 * π) ∈ Set.Icc (-(2 * π)) (4 * π) ∧
      angle_mod_2PI (2 * π) ∉ Set.Ico 0 (2 * π) := by
  have hπ : (0 : ℝ) < π := Real.pi_pos
  refine ⟨⟨by linarith, by linarith⟩, ?_⟩
  rw [angle_mod_2PI_of_nonneg_le (by linarith) (le_refl (2 * π))]
  intro hmem
  exact absurd hmem.2 (lt_irrefl (2 * π))

/-- Claim C3 (amended): for every input in [-2*pi, 4*pi], angle_mod_2PI
returns a value in the closed interval [0, 2*pi], and angle_mod_2PI is
idempotent on such inputs. -/
theorem angle_mod_2PI_range_idem (x : ℝ)
    (h : x ∈ Set.Icc (-(2 * π)) (4 * π)) :
    angle_mod_2PI x ∈ Set.Icc 0 (2 * π) ∧
      angle_mod_2PI (angle_mod_2PI x) = angle_mod_2PI x := by
  have hmem := angle_mod_2PI_mem_Icc h
  exact ⟨hmem, angle_mod_2PI_of_nonneg_le hmem.1 hmem.2⟩

/-- Witness for C3: the input 3 is in the domain and satisfies the
conclusion. -/
theorem angle_mod_2PI_range_idem_witness :
    (3 : ℝ) ∈ Set.Icc (-(2 * π)) (4 * π) ∧
      (angle_mod_2PI 3 ∈ Set.Icc 0 (2 * π) ∧
        angle_mod_2PI (angle_mod_2PI 3) = angle_mod_2PI 3) := by
  have h3 : (3 : ℝ) < π := Real.pi_gt_three
  have hmem : (3 : ℝ) ∈ Set.Icc (-(2 * π)) (4 * π) := ⟨by linarith, by linarith⟩
  exact ⟨hmem, angle_mod_2PI_range_idem 3 hmem⟩

/-! ### Claim C6 -/

/-- Claim C6: for normalized angles, the angular distance is symmetric, its
value lies in [0, pi], and the distance of any angle to itself is 0. -/
theorem angularDistance_props (a b : ℝ)
    (ha : a ∈ Set.Ico 0 (2 * π)) (hb : b ∈ Set.Ico 0 (2 * π)) :
    angularDistance a b = angularDistance b a ∧
      angularDistance a b ∈ Set.Icc 0 π ∧
      angularDistance a a = 0 := by
  have hπ : (0 : ℝ) < π := Real.pi_pos
  refine ⟨?_, ?_, ?_⟩
  · rw [angularDistance_zero_right a b, angularDistance_zero_right b a]
    have hs := angularDistance_neg (x := a - b)
      (by linarith [ha.1, hb.2]) (by linarith [ha.2, hb.1])
    rw [show -(a - b) = b - a by ring] at hs
    exact hs.symm
  · have hm := angle_mod_2PI_mem_Icc (x := a - b)
      ⟨by linarith [ha.1, hb.2], by linarith [ha.2, hb.1]⟩
    unfold angularDistance
    constructor
    · exact le_min hm.1 (by linarith [hm.2])
    · rcases le_total (angle_mod_2PI (a - b)) π with h | h
      · exact le_trans (min_le_left _ _) h
      · exact le_trans (min_le_right _ _) (by linarith)
  · unfold angularDistance
    rw [sub_self, angle_mod_2PI_of_nonneg_le (le_refl 0) (by linarith),
        sub_zero]
    exact min_eq_left (by linarith)

/-- Witness for C6 at a = 0, b = pi. -/
theorem angularDistance_props_witness :
    ((0 : ℝ) ∈ Set.Ico 0 (2 * π) ∧ π ∈ Set.Ico 0 (2 * π)) ∧
      (angularDistance 0 π = angularDistance π 0 ∧
        angularDistance 0 π ∈ Set.Icc 0 π ∧
        angularDistance 0 0 = 0) := by
  have hπ : (0 : ℝ) < π := Real.pi_pos
  have h0 : (0 : ℝ) ∈ Set.Ico 0 (2 * π) := ⟨le_refl 0, by linarith⟩
  have hp : π ∈ Set.Ico 0 (2 * π) := ⟨by linarith, by linarith⟩
  exact ⟨⟨h0, hp⟩, angularDistance_props 0 π h0 hp⟩

/-! ### Claim C7 -/

/-- Claim C7: for any vector other than the origin, arctg returns a value in
[0, 2*pi); moreover arctg (0, 1) = 0, arctg (1, 0) = pi/2,
arctg (0, -1) = pi, and arctg (-1, 0) = 3*pi/2. -/
theorem arctg_spec (dy dx : ℝ) (h : ¬(dx = 0 ∧ dy = 0)) :
    arctg dy dx ∈ Set.Ico 0 (2 * π) ∧
      arctg 0 1 = 0 ∧ arctg 1 0 = π / 2 ∧
      arctg 0 (-1) = π ∧ arctg (-1) 0 = 3 * π / 2 := by
  have hπ : (0 : ℝ) < π := Real.pi_pos
  refine ⟨arctg_mem_Ico dy dx, ?_, ?_, ?_, ?_⟩
  · unfold arctg
    rw [show ((1 : ℝ) : ℂ) + ((0 : ℝ) : ℂ) * Complex.I = 1 by norm_num,
        Complex.arg_one]
    rw [if_neg (lt_irrefl 0)]
  · unfold arctg
    rw [show ((0 : ℝ) : ℂ) + ((1 : ℝ) : ℂ) * Complex.I = Complex.I by norm_num,
        Complex.arg_I]
    rw [if_neg (by linarith : ¬π / 2 < 0)]
  · unfold arctg
    rw [show ((-1 : ℝ) : ℂ) + ((0 : ℝ) : ℂ) * Complex.I = -1 by norm_num,
        Complex.arg_neg_one]
    rw [if_neg (by linarith : ¬π < 0)]
  · unfold arctg
    rw [show ((0 : ℝ) : ℂ) + ((-1 : ℝ) : ℂ) * Complex.I = -Complex.I by norm_num,
        Complex.arg_neg_I]
    rw [if_pos (by linarith : -(π / 2) < 0)]
    ring

/-- Witness for C7 at the vector (1, 1). -/
theorem arctg_spec_witness :
    ¬((1 : ℝ) = 0 ∧ (1 : ℝ) = 0) ∧
      (arctg 1 1 ∈ Set.Ico 0 (2 * π) ∧
        arctg 0 1 = 0 ∧ arctg 1 0 = π / 2 ∧
        arctg 0 (-1) = π ∧ arctg (-1) 0 = 3 * π / 2) := by
  have h : ¬((1 : ℝ) = 0 ∧ (1 : ℝ) = 0) := by norm_num
  exact ⟨h, arctg_spec 1 1 h⟩

/-! ### Claim C4 -/

/-- Claim C4: closest returns ALPHA exactly when alpha's angular distance to
the angle is strictly smaller than beta's, and BETA otherwise; in particular
closest (0, pi, 0.01) = ALPHA, closest (0, pi, pi - 0.01) = BETA, and the
equidistant press closest (0, pi, pi/2) resolves to BETA. -/
theorem closest_spec (alpha beta angle : ℝ)
    (ha : alpha ∈ Set.Ico 0 (2 * π)) (hb : beta ∈ Set.Ico 0 (2 * π))
    (hc : angle ∈ Set.Ico 0 (2 * π)) :
    closest alpha beta angle =
      (if angularDistance alpha angle < angularDistance beta angle
       then DialTarget.ALPHA else DialTarget.BETA) ∧
      closest 0 π 0.01 = DialTarget.ALPHA ∧
      closest 0 π (π - 0.01) = DialTarget.BETA ∧
      closest 0 π (π / 2) = DialTarget.BETA := by
  have h3 : (3 : ℝ) < π := Real.pi_gt_three
  have h4 : π < 3.15 := Real.pi_lt_d2
  have e1 : angularDistance 0 0.01 = 0.01 := by
    unfold angularDistance
    rw [angle_mod_2PI_of_neg (by norm_num : (0 : ℝ) - 0.01 < 0)]
    rw [min_eq_right (by linarith)]
    ring
  have e2 : angularDistance π 0.01 = π - 0.01 := by
    unfold angularDistance
    rw [angle_mod_2PI_of_nonneg_le (by linarith) (by linarith)]
    rw [min_eq_left (by linarith)]
  have e3 : angularDistance 0 (π - 0.01) = π - 0.01 := by
    unfold angularDistance
    rw [angle_mod_2PI_of_neg (by linarith : (0 : ℝ) - (π - 0.01) < 0)]
    rw [min_eq_right (by linarith)]
    ring
  have e4 : angularDistance π (π - 0.01) = 0.01 := by
    unfold angularDistance
    rw [angle_mod_2PI_of_nonneg_le (by linarith) (by linarith)]
    rw [min_eq_left (by linarith)]
    ring
  have e5 : angularDistance 0 (π / 2) = π / 2 := by
    unfold angularDistance
    rw [angle_mod_2PI_of_neg (by linarith : (0 : ℝ) - π / 2 < 0)]
    rw [min_eq_right (by linarith)]
    ring
  have e6 : angularDistance π (π / 2) = π / 2 := by
    unfold angularDistance
    rw [angle_mod_2PI_of_nonneg_le (by linarith) (by linarith)]
    rw [min_eq_left (by linarith)]
    ring
  refine ⟨?_, ?_, ?_, ?_⟩
  · show (if angularDistance alpha angle - angularDistance beta angle < 0
          then DialTarget.ALPHA else DialTarget.BETA) = _
    simp only [sub_neg]
  · show (if angularDistance 0 0.01 - angularDistance π 0.01 < 0
          then DialTarget.ALPHA else DialTarget.BETA) = _
    rw [if_pos (by rw [e1, e2]; linarith)]
  · show (if angularDistance 0 (π - 0.01) - angularDistance π (π - 0.01) < 0
          then DialTarget.ALPHA else DialTarget.BETA) = _
    rw [if_neg (by rw [e3, e4]; linarith)]
  · show (if angularDistance 0 (π / 2) - angularDistance π (π / 2) < 0
          then DialTarget.ALPHA else DialTarget.BETA) = _
    rw [if_neg (by rw [e5, e6]; linarith)]

/-- Witness for C4 at alpha = 0, beta = pi, angle = pi/2. -/
theorem closest_spec_witness :
    ((0 : ℝ) ∈ Set.Ico 0 (2 * π) ∧ π ∈ Set.Ico 0 (2 * π) ∧
      π / 2 ∈ Set.Ico 0 (2 * π)) ∧
      (closest 0 π (π / 2) =
        (if angularDistance 0 (π / 2) < angularDistance π (π / 2)
         then DialTarget.ALPHA else DialTarget.BETA) ∧
        closest 0 π 0.01 = DialTarget.ALPHA ∧
        closest 0 π (π - 0.01) = DialTarget.BETA ∧
        closest 0 π (π / 2) = DialTarget.BETA) := by
  have hπ : (0 : ℝ) < π := Real.pi_pos
  have h0 : (0 : ℝ) ∈ Set.Ico 0 (2 * π) := ⟨le_refl 0, by linarith⟩
  have hp : π ∈ Set.Ico 0 (2 * π) := ⟨by linarith, by linarith⟩
  have hh : π / 2 ∈ Set.Ico 0 (2 * π) := ⟨by linarith, by linarith⟩
  exact ⟨⟨h0, hp, hh⟩, closest_spec 0 π (π / 2) h0 hp hh⟩

/-! ### Claim C10 -/

/-- Claim C10: the minimum distance computed by min_prox is always realized
by the handle chosen by closest: the two functions are coherent. -/
theorem min_prox_closest_coherent (alpha beta angle : ℝ)
    (ha : alpha ∈ Set.Ico 0 (2 * π)) (hb : beta ∈ Set.Ico 0 (2 * π))
    (hc : angle ∈ Set.Ico 0 (2 * π)) :
    min_prox alpha beta angle =
      angularDistance
        (if closest alpha beta angle = DialTarget.ALPHA then alpha else beta)
        angle := by
  by_cases h : angularDistance alpha angle - angularDistance beta angle < 0
  · have hcl : closest alpha beta angle = DialTarget.ALPHA := by
      unfold closest
      show (if angularDistance alpha angle - angularDistance beta angle < 0
            then DialTarget.ALPHA else DialTarget.BETA) = _
      rw [if_pos h]
    rw [hcl, if_pos rfl]
    show min (angularDistance alpha angle) (angularDistance beta angle) = _
    exact min_eq_left (by linarith)
  · have hcl : closest alpha beta angle = DialTarget.BETA := by
      unfold closest
      show (if angularDistance alpha angle - angularDistance beta angle < 0
            then DialTarget.ALPHA else DialTarget.BETA) = _
      rw [if_neg h]
    rw [hcl,
        if_neg (fun hx => DialTarget.noConfusion hx)]
    show min (angularDistance alpha angle) (angularDistance beta angle) = _
    exact min_eq_right (by linarith)

/-- Witness for C10 at alpha = 0, beta = pi, angle = pi/2. -/
theorem min_prox_closest_coherent_witness :
    ((0 : ℝ) ∈ Set.Ico 0 (2 * π) ∧ π ∈ Set.Ico 0 (2 * π) ∧
      π / 2 ∈ Set.Ico 0 (2 * π)) ∧
      min_prox 0 π (π / 2) =
        angularDistance
          (if closest 0 π (π / 2) = DialTarget.ALPHA then (0 : ℝ) else π)
          (π / 2) := by
  have hπ : (0 : ℝ) < π := Real.pi_pos
  have h0 : (0 : ℝ) ∈ Set.Ico 0 (2 * π) := ⟨le_refl 0, by linarith⟩
  have hp : π ∈ Set.Ico 0 (2 * π) := ⟨by linarith, by linarith⟩
  have hh : π / 2 ∈ Set.Ico 0 (2 * π) := ⟨by linarith, by linarith⟩
  exact ⟨⟨h0, hp, hh⟩, min_prox_closest_coherent 0 π (π / 2) h0 hp hh⟩

/-! ### Claim C2 -/

/-- Claim C2: a motion event handled while target = BOTH preserves the
angular distance between alpha and beta: both handles are rotated by the
same delta and renormalized. -/
theorem motion_both_preserves_angularDistance
    (dial : GimpDial) (allocation : GtkAllocation) (x y : ℝ)
    (ht : dial.target = DialTarget.BOTH)
    (ha : dial.alpha ∈ Set.Icc 0 (2 * π))
    (hb : dial.beta ∈ Set.Icc 0 (2 * π))
    (hp : dial.press_angle ∈ Set.Ico 0 (2 * π)) :
    angularDistance (gimp_dial_motion_notify_event dial allocation x y).alpha
        (gimp_dial_motion_notify_event dial allocation x y).beta =
      angularDistance dial.alpha dial.beta := by
  have hm := pointer_angle_mem_Ico allocation x y
  unfold gimp_dial_motion_notify_event
  dsimp only
  split_ifs with h1 h2 h3
  · rw [ht] at h2
    exact DialTarget.noConfusion h2
  · rw [ht] at h3
    exact DialTarget.noConfusion h3
  · exact both_rotation_preserves_angularDistance ha hb
      (by linarith [hm.1, hp.2]) (by linarith [hm.2, hp.1])
  · rfl

/-- Witness for C2: a dial with alpha = 0, beta = pi, target BOTH, stored
angle 0, in a 96 by 96 allocation, receiving a motion event at (48, 38). -/
theorem motion_both_preserves_angularDistance_witness :
    ((GimpDial.mk 0 π false DialTarget.BOTH 0 0).target = DialTarget.BOTH ∧
      (0 : ℝ) ∈ Set.Icc 0 (2 * π) ∧ π ∈ Set.Icc 0 (2 * π) ∧
      (0 : ℝ) ∈ Set.Ico 0 (2 * π)) ∧
      angularDistance
          (gimp_dial_motion_notify_event (GimpDial.mk 0 π false DialTarget.BOTH 0 0)
            (GtkAllocation.mk 96 96) 48 38).alpha
          (gimp_dial_motion_notify_event (GimpDial.mk 0 π false DialTarget.BOTH 0 0)
            (GtkAllocation.mk 96 96) 48 38).beta =
        angularDistance 0 π := by
  have hπ : (0 : ℝ) < π := Real.pi_pos
  have ha : (0 : ℝ) ∈ Set.Icc 0 (2 * π) := ⟨le_refl 0, by linarith⟩
  have hb : π ∈ Set.Icc 0 (2 * π) := ⟨by linarith, by linarith⟩
  have hp : (0 : ℝ) ∈ Set.Ico 0 (2 * π) := ⟨le_refl 0, by linarith⟩
  exact ⟨⟨rfl, ha, hb, hp⟩,
    motion_both_preserves_angularDistance
      (GimpDial.mk 0 π false DialTarget.BOTH 0 0)
      (GtkAllocation.mk 96 96) 48 38 rfl ha hb hp⟩

/-! ### Claim C1 -/

/-- Claim C1: on a primary-button press, if the distance from the center
exceeds EACH_OR_BOTH of the radius and the press angle is within pi/12 of
one of the handles, the target becomes the closest handle and that handle is
snapped exactly to the press angle (the other handle unchanged); in every
other case the target becomes BOTH and neither handle changes. -/
theorem button_press_spec (dial : GimpDial) (allocation : GtkAllocation) (x y : ℝ) :
    (distance_from_center allocation x y >
        ((dial_size dial allocation : ℤ) : ℝ) / 2 * EACH_OR_BOTH ∧
      min_prox dial.alpha dial.beta (pointer_angle allocation x y) < π / 12 →
      (gimp_dial_button_press_event dial allocation x y).target =
          closest dial.alpha dial.beta (pointer_angle allocation x y) ∧
        (closest dial.alpha dial.beta (pointer_angle allocation x y) =
            DialTarget.ALPHA →
          (gimp_dial_button_press_event dial allocation x y).alpha =
              pointer_angle allocation x y ∧
            (gimp_dial_button_press_event dial allocation x y).beta =
              dial.beta) ∧
        (closest dial.alpha dial.beta (pointer_angle allocation x y) =
            DialTarget.BETA →
          (gimp_dial_button_press_event dial allocation x y).beta =
              pointer_angle allocation x y ∧
            (gimp_dial_button_press_event dial allocation x y).alpha =
              dial.alpha)) ∧
    (¬(distance_from_center allocation x y >
        ((dial_size dial allocation : ℤ) : ℝ) / 2 * EACH_OR_BOTH ∧
      min_prox dial.alpha dial.beta (pointer_angle allocation x y) < π / 12) →
      (gimp_dial_button_press_event dial allocation x y).target =
          DialTarget.BOTH ∧
        (gimp_dial_button_press_event dial allocation x y).alpha = dial.alpha ∧
        (gimp_dial_button_press_event dial allocation x y).beta = dial.beta) := by
  unfold gimp_dial_button_press_event
  dsimp only
  split_ifs with hcond hA
  · exact ⟨fun _ => ⟨rfl, fun _ => ⟨rfl, rfl⟩,
      fun hB => DialTarget.noConfusion (hB.symm.trans hA)⟩,
      fun hnc => absurd hcond hnc⟩
  · exact ⟨fun _ => ⟨rfl, fun hA2 => absurd hA2 hA, fun _ => ⟨rfl, rfl⟩⟩,
      fun hnc => absurd hcond hnc⟩
  · exact ⟨fun hc => absurd hc hcond, fun _ => ⟨rfl, rfl, rfl⟩⟩

/-- Witness for C1: a press at the center of a 96 by 96 allocation with zero
border fails the distance condition, so the target becomes BOTH and both
handles keep their values. -/
theorem button_press_spec_witness :
    ¬(distance_from_center (GtkAllocation.mk 96 96) 48 48 >
        ((dial_size (GimpDial.mk 0 π false DialTarget.BOTH 0 0)
            (GtkAllocation.mk 96 96) : ℤ) : ℝ) / 2 * EACH_OR_BOTH ∧
      min_prox (GimpDial.mk 0 π false DialTarget.BOTH 0 0).alpha
        (GimpDial.mk 0 π false DialTarget.BOTH 0 0).beta
        (pointer_angle (GtkAllocation.mk 96 96) 48 48) < π / 12) ∧
      ((gimp_dial_button_press_event (GimpDial.mk 0 π false DialTarget.BOTH 0 0)
            (GtkAllocation.mk 96 96) 48 48).target = DialTarget.BOTH ∧
        (gimp_dial_button_press_event (GimpDial.mk 0 π false DialTarget.BOTH 0 0)
            (GtkAllocation.mk 96 96) 48 48).alpha =
          (GimpDial.mk 0 π false DialTarget.BOTH 0 0).alpha ∧
        (gimp_dial_button_press_event (GimpDial.mk 0 π false DialTarget.BOTH 0 0)
            (GtkAllocation.mk 96 96) 48 48).beta =
          (GimpDial.mk 0 π false DialTarget.BOTH 0 0).beta) := by
  have hd : distance_from_center (GtkAllocation.mk 96 96) 48 48 = 0 := by
    unfold distance_from_center center_x center_y
    norm_num
  have hnc : ¬(distance_from_center (GtkAllocation.mk 96 96) 48 48 >
      ((dial_size (GimpDial.mk 0 π false DialTarget.BOTH 0 0)
          (GtkAllocation.mk 96 96) : ℤ) : ℝ) / 2 * EACH_OR_BOTH ∧
      min_prox (GimpDial.mk 0 π false DialTarget.BOTH 0 0).alpha
        (GimpDial.mk 0 π false DialTarget.BOTH 0 0).beta
        (pointer_angle (GtkAllocation.mk 96 96) 48 48) < π / 12) := by
    intro h
    have h1 := h.1
    rw [hd] at h1
    norm_num [dial_size, EACH_OR_BOTH] at h1
  exact ⟨hnc,
    (button_press_spec (GimpDial.mk 0 π false DialTarget.BOTH 0 0)
      (GtkAllocation.mk 96 96) 48 48).2 hnc⟩

/-! ### Claim C5 -/

/-- Claim C5 counterexample: with a 10 by 10 allocation and border width 60
the derived size is -110, so the distance threshold is negative; a press at
the exact center (distance 0) then passes the condition and, with alpha = 0
and press angle 0, targets ALPHA instead of BOTH. -/
theorem press_center_counterexample :
    distance_from_center (GtkAllocation.mk 10 10) 5 5 = 0 ∧
      (gimp_dial_button_press_event
          (GimpDial.mk 0 π false DialTarget.BOTH 0 60)
          (GtkAllocation.mk 10 10) 5 5).target ≠ DialTarget.BOTH := by
  have hπ : (0 : ℝ) < π := Real.pi_pos
  have hd : distance_from_center (GtkAllocation.mk 10 10) 5 5 = 0 := by
    unfold distance_from_center center_x center_y
    norm_num
  have harctg : arctg 0 0 = 0 := by
    unfold arctg
    rw [show ((0 : ℝ) : ℂ) + ((0 : ℝ) : ℂ) * Complex.I = 0 by norm_num,
        Complex.arg_zero]
    rw [if_neg (lt_irrefl 0)]
  have hpa : pointer_angle (GtkAllocation.mk 10 10) 5 5 = 0 := by
    unfold pointer_angle center_x center_y
    norm_num [harctg]
    rw [angle_mod_2PI_of_nonneg_le (le_refl 0) (by linarith)]
  have hmp : min_prox 0 π 0 = 0 := by
    unfold min_prox
    simp only [sub_zero]
    rw [angle_mod_2PI_of_nonneg_le (le_refl 0) (by linarith),
        angle_mod_2PI_of_nonneg_le (by linarith) (by linarith)]
    rw [min_eq_left (by linarith : (0 : ℝ) ≤ 2 * π - 0)]
    rw [min_eq_left (le_min (by linarith) (by linarith))]
  have hd1 : angularDistance 0 0 = 0 := by
    unfold angularDistance
    rw [sub_self, angle_mod_2PI_of_nonneg_le (le_refl 0) (by linarith),
        sub_zero]
    exact min_eq_left (by linarith)
  have hd2 : angularDistance π 0 = π := by
    unfold angularDistance
    rw [sub_zero, angle_mod_2PI_of_nonneg_le (by linarith) (by linarith)]
    exact min_eq_left (by linarith)
  have hcl : closest 0 π 0 = DialTarget.ALPHA := by
    show (if angularDistance 0 0 - angularDistance π 0 < 0
          then DialTarget.ALPHA else DialTarget.BETA) = _
    rw [if_pos (by rw [hd1, hd2]; linarith)]
  refine ⟨hd, ?_⟩
  unfold gimp_dial_button_press_event
  dsimp only
  rw [hpa]
  rw [if_pos ⟨by rw [hd]; norm_num [dial_size, EACH_OR_BOTH],
        by rw [hmp]; positivity⟩]
  rw [hcl]
  rw [if_pos rfl]
  intro h
  exact DialTarget.noConfusion h

/-- Claim C5 (amended): provided the derived size is nonnegative, a press at
the exact center of the dial always sets target = BOTH, for every alpha and
beta. -/
theorem press_center_targets_both
    (dial : GimpDial) (allocation : GtkAllocation) (x y : ℝ)
    (hsize : 0 ≤ dial_size dial allocation)
    (hdist : distance_from_center allocation x y = 0) :
    (gimp_dial_button_press_event dial allocation x y).target =
      DialTarget.BOTH := by
  have hc : ¬(distance_from_center allocation x y >
      ((dial_size dial allocation : ℤ) : ℝ) / 2 * EACH_OR_BOTH ∧
      min_prox dial.alpha dial.beta (pointer_angle allocation x y) < π / 12) := by
    intro h
    have h1 := h.1
    rw [hdist] at h1
    have h0 : (0 : ℝ) ≤ ((dial_size dial allocation : ℤ) : ℝ) := by
      exact_mod_cast hsize
    unfold EACH_OR_BOTH at h1
    linarith
  unfold gimp_dial_button_press_event
  dsimp only
  rw [if_neg hc]

/-- Witness for C5: a 96 by 96 allocation with zero border (size 96) and a
press at the exact center (48, 48). -/
theorem press_center_targets_both_witness :
    (0 ≤ dial_size (GimpDial.mk 0 π false DialTarget.BOTH 0 0)
        (GtkAllocation.mk 96 96) ∧
      distance_from_center (GtkAllocation.mk 96 96) 48 48 = 0) ∧
      (gimp_dial_button_press_event (GimpDial.mk 0 π false DialTarget.BOTH 0 0)
          (GtkAllocation.mk 96 96) 48 48).target = DialTarget.BOTH := by
  have hs : (0 : ℤ) ≤ dial_size (GimpDial.mk 0 π false DialTarget.BOTH 0 0)
      (GtkAllocation.mk 96 96) := by
    norm_num [dial_size]
  have hd : distance_from_center (GtkAllocation.mk 96 96) 48 48 = 0 := by
    unfold distance_from_center center_x center_y
    norm_num
  exact ⟨⟨hs, hd⟩,
    press_center_targets_both (GimpDial.mk 0 π false DialTarget.BOTH 0 0)
      (GtkAllocation.mk 96 96) 48 48 hs hd⟩

/-! ### Claim C8 -/

/-- Claim C8 counterexample: from the normalized state alpha = pi,
beta = pi/2, stored angle pi/2, target BOTH, a motion event straight below
the center of a 96 by 96 allocation (motion angle 3*pi/2, delta pi) sets
alpha to exactly 2*pi, which is outside [0, 2*pi) since both guards of
angle_mod_2PI are strict. -/
theorem motion_normalization_counterexample :
    (π ∈ Set.Ico 0 (2 * π) ∧ π / 2 ∈ Set.Ico 0 (2 * π)) ∧
      (gimp_dial_motion_notify_event
          (GimpDial.mk π (π / 2) false DialTarget.BOTH (π / 2) 0)
          (GtkAllocation.mk 96 96) 48 58).alpha = 2 * π ∧
      (2 * π) ∉ Set.Ico 0 (2 * π) := by
  have hπ : (0 : ℝ) < π := Real.pi_pos
  have harctg : arctg (-10) 0 = 3 * π / 2 := by
    unfold arctg
    rw [show ((0 : ℝ) : ℂ) + ((-10 : ℝ) : ℂ) * Complex.I =
          ((10 : ℝ) : ℂ) * (-Complex.I) by push_cast; ring]
    rw [Complex.arg_real_mul (-Complex.I) (by norm_num : (0 : ℝ) < 10),
        Complex.arg_neg_I]
    rw [if_pos (by linarith : -(π / 2) < 0)]
    ring
  have hpa : pointer_angle (GtkAllocation.mk 96 96) 48 58 = 3 * π / 2 := by
    unfold pointer_angle center_x center_y
    norm_num [harctg]
    rw [angle_mod_2PI_of_nonneg_le (by linarith) (by linarith)]
  refine ⟨⟨⟨by linarith, by linarith⟩, ⟨by linarith, by linarith⟩⟩, ?_, ?_⟩
  · unfold gimp_dial_motion_notify_event
    dsimp only
    rw [hpa]
    rw [if_pos (by intro h0; linarith :
          (3 * π / 2 - π / 2 ≠ 0))]
    rw [if_neg (fun h => DialTarget.noConfusion h),
        if_neg (fun h => DialTarget.noConfusion h)]
    show angle_mod_2PI (π + (3 * π / 2 - π / 2)) = 2 * π
    rw [show π + (3 * π / 2 - π / 2) = 2 * π by ring]
    exact angle_mod_2PI_of_nonneg_le (by linarith) (le_refl (2 * π))
  · intro h
    exact absurd h.2 (lt_irrefl (2 * π))

/-- Claim C8 (amended): after a press update and after a motion update, both
alpha and beta lie in the closed range [0, 2*pi] (the boundary 2*pi is
reachable, as the counterexample shows, so the closed interval is tight). -/
theorem updates_keep_angles_normalized
    (dial : GimpDial) (allocation : GtkAllocation) (x y : ℝ)
    (ha : dial.alpha ∈ Set.Icc 0 (2 * π)) (hb : dial.beta ∈ Set.Icc 0 (2 * π))
    (hp : dial.press_angle ∈ Set.Icc 0 (2 * π)) :
    ((gimp_dial_button_press_event dial allocation x y).alpha ∈
        Set.Icc 0 (2 * π) ∧
      (gimp_dial_button_press_event dial allocation x y).beta ∈
        Set.Icc 0 (2 * π)) ∧
    ((gimp_dial_motion_notify_event dial allocation x y).alpha ∈
        Set.Icc 0 (2 * π) ∧
      (gimp_dial_motion_notify_event dial allocation x y).beta ∈
        Set.Icc 0 (2 * π)) := by
  have hm := pointer_angle_mem_Ico allocation x y
  constructor
  · unfold gimp_dial_button_press_event
    dsimp only
    split_ifs with h1 h2
    · exact ⟨⟨hm.1, hm.2.le⟩, hb⟩
    · exact ⟨ha, ⟨hm.1, hm.2.le⟩⟩
    · exact ⟨ha, hb⟩
  · unfold gimp_dial_motion_notify_event
    dsimp only
    split_ifs with h1 h2 h3
    · exact ⟨⟨hm.1, hm.2.le⟩, hb⟩
    · exact ⟨ha, ⟨hm.1, hm.2.le⟩⟩
    · constructor
      · exact angle_mod_2PI_mem_Icc
          ⟨by linarith [ha.1, hm.1, hp.2], by linarith [ha.2, hm.2, hp.1]⟩
      · exact angle_mod_2PI_mem_Icc
          ⟨by linarith [hb.1, hm.1, hp.2], by linarith [hb.2, hm.2, hp.1]⟩
    · exact ⟨ha, hb⟩

/-- Witness for C8 at the dial alpha = 0, beta = pi, target BOTH, stored
angle 0, allocation 96 by 96, event point (48, 38). -/
theorem updates_keep_angles_normalized_witness :
    ((0 : ℝ) ∈ Set.Icc 0 (2 * π) ∧ π ∈ Set.Icc 0 (2 * π)) ∧
      (((gimp_dial_button_press_event (GimpDial.mk 0 π false DialTarget.BOTH 0 0)
            (GtkAllocation.mk 96 96) 48 38).alpha ∈ Set.Icc 0 (2 * π) ∧
        (gimp_dial_button_press_event (GimpDial.mk 0 π false DialTarget.BOTH 0 0)
            (GtkAllocation.mk 96 96) 48 38).beta ∈ Set.Icc 0 (2 * π)) ∧
      ((gimp_dial_motion_notify_event (GimpDial.mk 0 π false DialTarget.BOTH 0 0)
            (GtkAllocation.mk 96 96) 48 38).alpha ∈ Set.Icc 0 (2 * π) ∧
        (gimp_dial_motion_notify_event (GimpDial.mk 0 π false DialTarget.BOTH 0 0)
            (GtkAllocation.mk 96 96) 48 38).beta ∈ Set.Icc 0 (2 * π))) := by
  have hπ : (0 : ℝ) < π := Real.pi_pos
  have h0 : (0 : ℝ) ∈ Set.Icc 0 (2 * π) := ⟨le_refl 0, by linarith⟩
  have hp : π ∈ Set.Icc 0 (2 * π) := ⟨by linarith, by linarith⟩
  exact ⟨⟨h0, hp⟩,
    updates_keep_angles_normalized (GimpDial.mk 0 π false DialTarget.BOTH 0 0)
      (GtkAllocation.mk 96 96) 48 38 h0 hp h0⟩

/-! ### Claim C9 -/

/-- Claim C9: for every pixel (i, j) of the size by size buffer, the written
color is the hsv-to-rgb conversion of hue = arctg-angle / 2*pi, saturation =
distance from the center divided by the radius and clamped to 1, value =
1 - sqrt (clamped distance) / 4, with opaque alpha 255. -/
theorem draw_background_pixel_spec
    (gimp_hsv_to_rgb4 : ℝ → ℝ → ℝ → ℕ × ℕ × ℕ) (size i j : ℕ)
    (hsize : 0 < size) (hi : i < size) (hj : j < size) :
    gimp_dial_draw_background_pixel
        (gimp_dial_background_func_hsv gimp_hsv_to_rgb4) size i j =
      spec_background_pixel gimp_hsv_to_rgb4 size i j := by
  have hr : (0 : ℝ) < (size : ℝ) / 2 := by
    have : (0 : ℝ) < (size : ℝ) := by exact_mod_cast hsize
    linarith
  have hA : (0 : ℝ) ≤ ((i : ℝ) - (size : ℝ) / 2) ^ 2 +
      ((j : ℝ) - (size : ℝ) / 2) ^ 2 := by positivity
  unfold gimp_dial_draw_background_pixel spec_background_pixel
    gimp_dial_background_func_hsv
  dsimp only
  rw [Real.sqrt_div hA, Real.sqrt_sq hr.le]

/-- Witness for C9 at size 2, pixel (0, 0), with a constant conversion
function. -/
theorem draw_background_pixel_spec_witness :
    ((0 : ℕ) < 2 ∧ (0 : ℕ) < 2) ∧
      gimp_dial_draw_background_pixel
          (gimp_dial_background_func_hsv (fun _ _ _ => (0, 0, 0))) 2 0 0 =
        spec_background_pixel (fun _ _ _ => (0, 0, 0)) 2 0 0 := by
  exact ⟨⟨by norm_num, by norm_num⟩,
    draw_background_pixel_spec (fun _ _ _ => (0, 0, 0)) 2 0 0
      (by norm_num) (by norm_num) (by norm_num)⟩
